import Mathlib

/-!
Shallow embedding of `src/bytebuffer.rs` (crate `rust-bytebuffer`).

Modelling conventions:
* A Rust `u8` is `Byte := Fin 256`; `Vec<u8>` is `List Byte`.
* `usize` values live in `Nat`; where the Rust code can overflow a 64-bit
  `usize` (release-mode wrapping arithmetic inside `get_string`), the wrap is
  written explicitly as `% 2 ^ 64`.
* An `i32` is an `Int` in `[-2^31, 2^31)`; a `u32` is a `Nat` below `2 ^ 32`;
  an `f32` is represented by its IEEE-754 bit pattern, a `Nat` below `2 ^ 32`
  (`byteorder`'s `write_f32`/`read_f32` move exactly the `to_bits` pattern
  little-endian, so the bit pattern is the faithful observable value).
* A Rust `Result<T, String>` is `RustOutcome T`: the two error strings the
  source ever produces, `Err("Buffer underflow")` and
  `Err("Invalid UTF-8 string")`, become the constructors
  `bufferUnderflow` and `invalidEncoding`; a Rust panic (reachable in
  `get_string` through an out-of-range slice after `usize` wrap-around)
  becomes the outcome `panicked`.
* A Rust `String`/`&str` is its UTF-8 byte list `List Byte`; `str::from_utf8`
  becomes the validity check `utf8Valid` (the exact well-formed-UTF-8
  predicate of the Unicode standard, which is what Rust's `from_utf8`
  implements).
-/

abbrev Byte := Fin 256

def mkByte (n : Nat) : Byte := ⟨n % 256, Nat.mod_lt _ (by norm_num)⟩

/-- Little-endian encoding of the low 32 bits of `u`, as written by
`byteorder::LittleEndian` for a 32-bit value. -/
def encLE32 (u : Nat) : List Byte :=
  [mkByte u, mkByte (u / 256), mkByte (u / 65536), mkByte (u / 16777216)]

/-- Little-endian decoding of exactly four bytes, as read by
`byteorder::LittleEndian` for a 32-bit value. -/
def decLE32 : List Byte → Nat
  | [b0, b1, b2, b3] => b0.val + 256 * b1.val + 65536 * b2.val + 16777216 * b3.val
  | _ => 0

/-- Reinterpret a `u32` bit pattern as an `i32` value (two's complement). -/
def toSigned (u : Nat) : Int :=
  if u < 2 ^ 31 then (u : Int) else (u : Int) - 2 ^ 32

/-- Rust's `as usize` on an `i32`: sign-extend to 64 bits. -/
def intAsUsize (v : Int) : Nat := (v % (2 ^ 64 : Int)).toNat

/-- The two `Err(..)` strings of the source, plus the panic outcome. -/
inductive BBErr where
  | bufferUnderflow
  | invalidEncoding
  deriving DecidableEq, Repr

inductive RustOutcome (α : Type) where
  | ok (a : α)
  | err (e : BBErr)
  | panicked
  deriving DecidableEq, Repr

structure ByteBuffer where
  buffer : List Byte
  position : Nat
  deriving DecidableEq, Repr

namespace ByteBuffer

/-- `ByteBuffer::new(data: Option<Vec<u8>>)`. -/
def new (data : Option (List Byte)) : ByteBuffer :=
  { buffer := data.getD [], position := 0 }

/-- `ensure_capacity`: `Vec::resize(required_capacity, 0)` when growing,
which appends zero bytes. -/
def ensure_capacity (b : ByteBuffer) (required_bytes : Nat) : ByteBuffer :=
  let required_capacity := b.position + required_bytes
  if required_capacity > b.buffer.length then
    { b with buffer := b.buffer ++ List.replicate (required_capacity - b.buffer.length) 0 }
  else b

/-- Overwrite `l` starting at index `i` with the bytes `vs`
(the effect of writing through a `Cursor` over `&mut buffer[i..i+vs.length]`). -/
def setBytes (l : List Byte) (i : Nat) (vs : List Byte) : List Byte :=
  match vs with
  | [] => l
  | v :: rest => setBytes (l.set i v) (i + 1) rest

/-- `put_int32`: ensure capacity 4, write the value little-endian at
`[position, position+4)`, advance by 4. -/
def put_int32 (b : ByteBuffer) (value : Int) : ByteBuffer :=
  let b1 := b.ensure_capacity 4
  { b1 with
    buffer := setBytes b1.buffer b1.position (encLE32 ((value % (2 ^ 32 : Int)).toNat)),
    position := b1.position + 4 }

/-- `get_int32`. The pair's second component is the buffer state after the
call (Rust mutates `self` in place). -/
def get_int32 (b : ByteBuffer) : RustOutcome Int × ByteBuffer :=
  if b.position + 4 > b.buffer.length then (.err .bufferUnderflow, b)
  else
    (.ok (toSigned (decLE32 ((b.buffer.drop b.position).take 4))),
     { b with position := b.position + 4 })

/-- `put_uint32`. -/
def put_uint32 (b : ByteBuffer) (value : Nat) : ByteBuffer :=
  let b1 := b.ensure_capacity 4
  { b1 with
    buffer := setBytes b1.buffer b1.position (encLE32 value),
    position := b1.position + 4 }

/-- `get_uint32`. -/
def get_uint32 (b : ByteBuffer) : RustOutcome Nat × ByteBuffer :=
  if b.position + 4 > b.buffer.length then (.err .bufferUnderflow, b)
  else
    (.ok (decLE32 ((b.buffer.drop b.position).take 4)),
     { b with position := b.position + 4 })

/-- `put_byte`. -/
def put_byte (b : ByteBuffer) (value : Byte) : ByteBuffer :=
  let b1 := b.ensure_capacity 1
  { b1 with
    buffer := b1.buffer.set b1.position value,
    position := b1.position + 1 }

/-- `get_byte`. -/
def get_byte (b : ByteBuffer) : RustOutcome Byte × ByteBuffer :=
  if b.position + 1 > b.buffer.length then (.err .bufferUnderflow, b)
  else
    (.ok (b.buffer.getD b.position 0), { b with position := b.position + 1 })

/-- `put_bool`: delegates to `put_byte` with 1/0. -/
def put_bool (b : ByteBuffer) (value : Bool) : ByteBuffer :=
  b.put_byte (if value then 1 else 0)

/-- `get_bool`: `Ok(self.get_byte()? != 0)`. -/
def get_bool (b : ByteBuffer) : RustOutcome Bool × ByteBuffer :=
  match b.get_byte with
  | (.ok v, b1) => (.ok (v.val != 0), b1)
  | (.err e, b1) => (.err e, b1)
  | (.panicked, b1) => (.panicked, b1)

/-- `put_string`: write `bytes.len() as i32` (a truncating `usize → i32`
cast), ensure capacity for the body, then `put_byte` each byte. -/
def put_string (b : ByteBuffer) (s : List Byte) : ByteBuffer :=
  let b1 := b.put_int32 (toSigned (s.length % 2 ^ 32))
  let b2 := b1.ensure_capacity s.length
  s.foldl (fun acc byte => acc.put_byte byte) b2

/-- Exact well-formed UTF-8 (Unicode Table 3-7), the predicate decided by
Rust's `str::from_utf8`. -/
def contByte (b : Byte) : Bool := 0x80 ≤ b.val && b.val ≤ 0xBF

def utf8Valid : List Byte → Bool
  | [] => true
  | b :: rest =>
    if b.val ≤ 0x7F then utf8Valid rest
    else if 0xC2 ≤ b.val && b.val ≤ 0xDF then
      match rest with
      | c1 :: rest2 => contByte c1 && utf8Valid rest2
      | [] => false
    else if 0xE0 ≤ b.val && b.val ≤ 0xEF then
      match rest with
      | c1 :: c2 :: rest3 =>
        (if b.val == 0xE0 then 0xA0 ≤ c1.val && c1.val ≤ 0xBF
         else if b.val == 0xED then 0x80 ≤ c1.val && c1.val ≤ 0x9F
         else contByte c1) && contByte c2 && utf8Valid rest3
      | _ => false
    else if 0xF0 ≤ b.val && b.val ≤ 0xF4 then
      match rest with
      | c1 :: c2 :: c3 :: rest4 =>
        (if b.val == 0xF0 then 0x90 ≤ c1.val && c1.val ≤ 0xBF
         else if b.val == 0xF4 then 0x80 ≤ c1.val && c1.val ≤ 0x8F
         else contByte c1) && contByte c2 && contByte c3 && utf8Valid rest4
      | _ => false
    else false

/-- `get_string`. `length` is the prefix after `as usize` sign-extension;
the bound check `self.position + length > self.buffer.len()` wraps modulo
`2 ^ 64` (release-mode `usize` addition); when the wrapped end index falls
before `position`, the slice `&self.buffer[position..position + length]`
panics (range start after range end). -/
def get_string (b : ByteBuffer) : RustOutcome (List Byte) × ByteBuffer :=
  match b.get_int32 with
  | (.ok v, b1) =>
    let length := intAsUsize v
    let endIdx := (b1.position + length) % 2 ^ 64
    if endIdx > b1.buffer.length then (.err .bufferUnderflow, b1)
    else if endIdx < b1.position then (.panicked, b1)
    else
      let body := (b1.buffer.drop b1.position).take (endIdx - b1.position)
      if utf8Valid body then (.ok body, { b1 with position := endIdx })
      else (.err .invalidEncoding, b1)
  | (.err e, b1) => (.err e, b1)
  | (.panicked, b1) => (.panicked, b1)

/-- `put_float`: `write_f32` moves the `to_bits` pattern little-endian. -/
def put_float (b : ByteBuffer) (value : Nat) : ByteBuffer :=
  let b1 := b.ensure_capacity 4
  { b1 with
    buffer := setBytes b1.buffer b1.position (encLE32 value),
    position := b1.position + 4 }

/-- `get_float`: `read_f32` yields `from_bits` of the little-endian word. -/
def get_float (b : ByteBuffer) : RustOutcome Nat × ByteBuffer :=
  if b.position + 4 > b.buffer.length then (.err .bufferUnderflow, b)
  else
    (.ok (decLE32 ((b.buffer.drop b.position).take 4)),
     { b with position := b.position + 4 })

/-- `put_vector`. -/
def put_vector (b : ByteBuffer) (vector : Nat × Nat × Nat) : ByteBuffer :=
  ((b.put_float vector.1).put_float vector.2.1).put_float vector.2.2

/-- `get_vector`: three `get_float` calls chained with `?`. -/
def get_vector (b : ByteBuffer) : RustOutcome (Nat × Nat × Nat) × ByteBuffer :=
  match b.get_float with
  | (.ok x, b1) =>
    match b1.get_float with
    | (.ok y, b2) =>
      match b2.get_float with
      | (.ok z, b3) => (.ok (x, y, z), b3)
      | (.err e, b3) => (.err e, b3)
      | (.panicked, b3) => (.panicked, b3)
    | (.err e, b2) => (.err e, b2)
    | (.panicked, b2) => (.panicked, b2)
  | (.err e, b1) => (.err e, b1)
  | (.panicked, b1) => (.panicked, b1)

/-- `put_rotator`. -/
def put_rotator (b : ByteBuffer) (rotator : Nat × Nat × Nat) : ByteBuffer :=
  ((b.put_float rotator.1).put_float rotator.2.1).put_float rotator.2.2

/-- `get_rotator`. -/
def get_rotator (b : ByteBuffer) : RustOutcome (Nat × Nat × Nat) × ByteBuffer :=
  match b.get_float with
  | (.ok x, b1) =>
    match b1.get_float with
    | (.ok y, b2) =>
      match b2.get_float with
      | (.ok z, b3) => (.ok (x, y, z), b3)
      | (.err e, b3) => (.err e, b3)
      | (.panicked, b3) => (.panicked, b3)
    | (.err e, b2) => (.err e, b2)
    | (.panicked, b2) => (.panicked, b2)
  | (.err e, b1) => (.err e, b1)
  | (.panicked, b1) => (.panicked, b1)

/-- `get_buffer`: read-only view of the whole storage. -/
def get_buffer (b : ByteBuffer) : List Byte := b.buffer

/-- One byte printed as `format!("{:02x}", b)`: two lowercase hex digits. -/
def hexDigit (n : Nat) : Char := Char.ofNat (if n < 10 then 48 + n else 87 + n)

/-- `to_hex`: map each byte to its two-digit lowercase hex form and
concatenate. -/
def to_hex (b : ByteBuffer) : String :=
  String.join (b.buffer.map fun x => String.mk [hexDigit (x.val / 16), hexDigit (x.val % 16)])

/-- Buffer states reachable through the public API: construction plus the
state after any put or get call (for a get, the state the mutated `self` is
left in, whether the call succeeded or failed). -/
inductive Reachable : ByteBuffer → Prop where
  | new (data : Option (List Byte)) : Reachable (ByteBuffer.new data)
  | put_int32 {b : ByteBuffer} (v : Int) : Reachable b → Reachable (b.put_int32 v)
  | put_uint32 {b : ByteBuffer} (v : Nat) : Reachable b → Reachable (b.put_uint32 v)
  | put_byte {b : ByteBuffer} (v : Byte) : Reachable b → Reachable (b.put_byte v)
  | put_bool {b : ByteBuffer} (v : Bool) : Reachable b → Reachable (b.put_bool v)
  | put_string {b : ByteBuffer} (s : List Byte) : Reachable b → Reachable (b.put_string s)
  | put_float {b : ByteBuffer} (v : Nat) : Reachable b → Reachable (b.put_float v)
  | put_vector {b : ByteBuffer} (t : Nat × Nat × Nat) : Reachable b → Reachable (b.put_vector t)
  | put_rotator {b : ByteBuffer} (t : Nat × Nat × Nat) : Reachable b → Reachable (b.put_rotator t)
  | get_int32 {b : ByteBuffer} : Reachable b → Reachable b.get_int32.2
  | get_uint32 {b : ByteBuffer} : Reachable b → Reachable b.get_uint32.2
  | get_byte {b : ByteBuffer} : Reachable b → Reachable b.get_byte.2
  | get_bool {b : ByteBuffer} : Reachable b → Reachable b.get_bool.2
  | get_string {b : ByteBuffer} : Reachable b → Reachable b.get_string.2
  | get_float {b : ByteBuffer} : Reachable b → Reachable b.get_float.2
  | get_vector {b : ByteBuffer} : Reachable b → Reachable b.get_vector.2
  | get_rotator {b : ByteBuffer} : Reachable b → Reachable b.get_rotator.2

/-- Frame discipline of a write call: the cursor and storage only grow, a
byte below the starting cursor or at or beyond the final cursor keeps its
value, and a byte that exists only because storage grew and that lies
outside the written region `[old.position, new.position)` is zero. -/
def Frames (old new : ByteBuffer) : Prop :=
  old.position ≤ new.position ∧
  old.buffer.length ≤ new.buffer.length ∧
  (∀ j, j < old.position → j < old.buffer.length → new.buffer[j]? = old.buffer[j]?) ∧
  (∀ j, new.position ≤ j → j < old.buffer.length → new.buffer[j]? = old.buffer[j]?) ∧
  (∀ j, old.buffer.length ≤ j → j < new.buffer.length →
    (j < old.position ∨ new.position ≤ j) → new.buffer[j]? = some 0)

end ByteBuffer

/-! ### List-level helper lemmas -/

namespace ByteBuffer

theorem length_setBytes (vs : List Byte) (l : List Byte) (i : Nat) :
    (setBytes l i vs).length = l.length := by
  induction vs generalizing l i with
  | nil => rfl
  | cons v rest ih => simp [setBytes, ih, List.length_set]

theorem getElem?_setBytes (vs : List Byte) (l : List Byte) (i j : Nat) :
    (setBytes l i vs)[j]? =
      if i ≤ j ∧ j < i + vs.length ∧ j < l.length then vs[j - i]? else l[j]? := by
  induction vs generalizing l i with
  | nil =>
    simp only [setBytes, List.length_nil]
    rw [if_neg (by omega)]
  | cons v rest ih =>
    simp only [setBytes, ih, List.length_set, List.getElem?_set, List.length_cons]
    by_cases h1 : i + 1 ≤ j ∧ j < i + 1 + rest.length ∧ j < l.length
    · rw [if_pos h1, if_pos (by omega)]
      have : j - i = (j - (i + 1)) + 1 := by omega
      rw [this]
      simp
    · rw [if_neg h1]
      by_cases h2 : i ≤ j ∧ j < i + (rest.length + 1) ∧ j < l.length
      · have hij : i = j := by omega
        rw [if_pos h2, if_pos hij, if_pos (by omega)]
        have : j - i = 0 := by omega
        simp [this]
      · rw [if_neg h2]
        by_cases hij : i = j
        · rw [if_pos hij]
          have : ¬ i < l.length := by omega
          rw [if_neg this]
          exact (List.getElem?_eq_none (by omega)).symm
        · rw [if_neg hij]

theorem take_drop_eq_of_getElem? (l : List Byte) (p : Nat) (vs : List Byte)
    (h : ∀ j, j < vs.length → l[p + j]? = vs[j]?) :
    (l.drop p).take vs.length = vs := by
  apply List.ext_getElem?
  intro n
  rw [List.getElem?_take, List.getElem?_drop]
  by_cases hn : n < vs.length
  · rw [if_pos hn, h n hn]
  · rw [if_neg hn]
    exact (List.getElem?_eq_none (by omega)).symm

theorem setBytes_readback (l : List Byte) (i : Nat) (vs : List Byte)
    (hlen : i + vs.length ≤ l.length) :
    ((setBytes l i vs).drop i).take vs.length = vs := by
  apply take_drop_eq_of_getElem?
  intro j hj
  rw [getElem?_setBytes, if_pos (by omega)]
  congr 1
  omega

theorem decLE32_encLE32 (u : Nat) : decLE32 (encLE32 u) = u % 2 ^ 32 := by
  simp only [encLE32, decLE32, mkByte]
  omega

theorem toSigned_emod_toNat (v : Int) (h1 : -2 ^ 31 ≤ v) (h2 : v < 2 ^ 31) :
    toSigned ((v % (2 ^ 32 : Int)).toNat % 2 ^ 32) = v := by
  unfold toSigned
  have hmod : 0 ≤ v % (2 ^ 32 : Int) := Int.emod_nonneg v (by norm_num)
  have hmod2 : v % (2 ^ 32 : Int) < 2 ^ 32 := Int.emod_lt_of_pos v (by norm_num)
  split <;> omega

end ByteBuffer

/-! ### Operation characterization lemmas -/

namespace ByteBuffer

theorem ensure_capacity_position (b : ByteBuffer) (n : Nat) :
    (b.ensure_capacity n).position = b.position := by
  simp only [ensure_capacity]
  split <;> rfl

theorem ensure_capacity_length (b : ByteBuffer) (n : Nat) :
    (b.ensure_capacity n).buffer.length = max b.buffer.length (b.position + n) := by
  simp only [ensure_capacity]
  split <;> simp <;> omega

theorem getElem?_ensure_capacity (b : ByteBuffer) (n j : Nat) :
    (b.ensure_capacity n).buffer[j]? =
      if j < b.buffer.length then b.buffer[j]?
      else if j < (b.ensure_capacity n).buffer.length then some 0
      else none := by
  simp only [ensure_capacity]
  split
  · simp only [List.getElem?_append, List.getElem?_replicate, List.length_append,
      List.length_replicate]
    by_cases hj : j < b.buffer.length
    · rw [if_pos hj, if_pos hj]
    · rw [if_neg hj, if_neg hj]
      split
      · rw [if_pos (by omega)]
      · rw [if_neg (by omega)]
  · by_cases hj : j < b.buffer.length
    · rw [if_pos hj]
    · rw [if_neg hj, if_neg hj]
      exact List.getElem?_eq_none (by omega)

theorem ensure_capacity_of_le (b : ByteBuffer) (n : Nat)
    (h : b.position + n ≤ b.buffer.length) : b.ensure_capacity n = b := by
  simp only [ensure_capacity]
  rw [if_neg (by omega)]

theorem length_encLE32 (u : Nat) : (encLE32 u).length = 4 := rfl

theorem put_int32_eq (b : ByteBuffer) (v : Int) :
    b.put_int32 v =
      { buffer := setBytes (b.ensure_capacity 4).buffer b.position
          (encLE32 ((v % (2 ^ 32 : Int)).toNat)),
        position := b.position + 4 } := by
  simp [put_int32, ensure_capacity_position]

theorem put_uint32_eq (b : ByteBuffer) (v : Nat) :
    b.put_uint32 v =
      { buffer := setBytes (b.ensure_capacity 4).buffer b.position (encLE32 v),
        position := b.position + 4 } := by
  simp [put_uint32, ensure_capacity_position]

theorem put_float_eq (b : ByteBuffer) (v : Nat) :
    b.put_float v =
      { buffer := setBytes (b.ensure_capacity 4).buffer b.position (encLE32 v),
        position := b.position + 4 } := by
  simp [put_float, ensure_capacity_position]

theorem put_byte_eq (b : ByteBuffer) (v : Byte) :
    b.put_byte v =
      { buffer := (b.ensure_capacity 1).buffer.set b.position v,
        position := b.position + 1 } := by
  simp [put_byte, ensure_capacity_position]

theorem length_word (b : ByteBuffer) (u : Nat) :
    (setBytes (b.ensure_capacity 4).buffer b.position (encLE32 u)).length =
      max b.buffer.length (b.position + 4) := by
  rw [length_setBytes, ensure_capacity_length]

theorem word_readback (b : ByteBuffer) (u : Nat) :
    ((setBytes (b.ensure_capacity 4).buffer b.position (encLE32 u)).drop b.position).take 4 =
      encLE32 u := by
  have h := setBytes_readback (b.ensure_capacity 4).buffer b.position (encLE32 u)
    (by rw [ensure_capacity_length, length_encLE32]; omega)
  rwa [length_encLE32] at h

theorem put_byte_of_le (b : ByteBuffer) (v : Byte) (h : b.position + 1 ≤ b.buffer.length) :
    b.put_byte v = { buffer := b.buffer.set b.position v, position := b.position + 1 } := by
  rw [put_byte_eq, ensure_capacity_of_le b 1 h]

theorem foldl_put_byte (s : List Byte) (b : ByteBuffer)
    (h : b.position + s.length ≤ b.buffer.length) :
    s.foldl (fun acc byte => acc.put_byte byte) b =
      { buffer := setBytes b.buffer b.position s, position := b.position + s.length } := by
  induction s generalizing b with
  | nil => simp [setBytes]
  | cons v rest ih =>
    simp only [List.length_cons] at h
    simp only [List.foldl_cons]
    rw [put_byte_of_le b v (by omega)]
    rw [ih _ (by simp only [List.length_set]; omega)]
    simp only [setBytes, List.length_cons]
    congr 1
    omega

end ByteBuffer

/-! ### Read characterizations and the scalar round-trip (C3) -/

namespace ByteBuffer

theorem get_int32_of_le (b : ByteBuffer) (h : b.position + 4 ≤ b.buffer.length) :
    b.get_int32 = (.ok (toSigned (decLE32 ((b.buffer.drop b.position).take 4))),
                   { b with position := b.position + 4 }) := by
  simp only [get_int32]
  rw [if_neg (by omega)]

theorem get_uint32_of_le (b : ByteBuffer) (h : b.position + 4 ≤ b.buffer.length) :
    b.get_uint32 = (.ok (decLE32 ((b.buffer.drop b.position).take 4)),
                    { b with position := b.position + 4 }) := by
  simp only [get_uint32]
  rw [if_neg (by omega)]

theorem get_float_of_le (b : ByteBuffer) (h : b.position + 4 ≤ b.buffer.length) :
    b.get_float = (.ok (decLE32 ((b.buffer.drop b.position).take 4)),
                   { b with position := b.position + 4 }) := by
  simp only [get_float]
  rw [if_neg (by omega)]

theorem get_byte_of_le (b : ByteBuffer) (h : b.position + 1 ≤ b.buffer.length) :
    b.get_byte = (.ok (b.buffer.getD b.position 0),
                  { b with position := b.position + 1 }) := by
  simp only [get_byte]
  rw [if_neg (by omega)]

theorem byte_set_getD (l : List Byte) (p : Nat) (v : Byte) (h : p < l.length) :
    (l.set p v).getD p 0 = v := by
  rw [List.getD_eq_getElem?_getD, List.getElem?_set, if_pos rfl, if_pos h]
  rfl

theorem get_int32_mk (B : List Byte) (p : Nat) (h : p + 4 ≤ B.length) :
    (ByteBuffer.mk B p).get_int32 =
      (.ok (toSigned (decLE32 ((B.drop p).take 4))), ByteBuffer.mk B (p + 4)) := by
  simp only [get_int32]
  rw [if_neg (by simp; omega)]

theorem get_uint32_mk (B : List Byte) (p : Nat) (h : p + 4 ≤ B.length) :
    (ByteBuffer.mk B p).get_uint32 =
      (.ok (decLE32 ((B.drop p).take 4)), ByteBuffer.mk B (p + 4)) := by
  simp only [get_uint32]
  rw [if_neg (by simp; omega)]

theorem get_float_mk (B : List Byte) (p : Nat) (h : p + 4 ≤ B.length) :
    (ByteBuffer.mk B p).get_float =
      (.ok (decLE32 ((B.drop p).take 4)), ByteBuffer.mk B (p + 4)) := by
  simp only [get_float]
  rw [if_neg (by simp; omega)]

theorem get_byte_mk (B : List Byte) (p : Nat) (h : p + 1 ≤ B.length) :
    (ByteBuffer.mk B p).get_byte = (.ok (B.getD p 0), ByteBuffer.mk B (p + 1)) := by
  simp only [get_byte]
  rw [if_neg (by simp; omega)]

/-- C3: round-trip law for scalars: from any starting buffer state, putting
an `i32`, `u32`, `f32` bit pattern, byte or bool and re-reading from the
write's start offset returns exactly the value written. -/
theorem scalar_roundtrip (b : ByteBuffer)
    (vi : Int) (hi1 : -2 ^ 31 ≤ vi) (hi2 : vi < 2 ^ 31)
    (vu : Nat) (hu : vu < 2 ^ 32)
    (vf : Nat) (hf : vf < 2 ^ 32)
    (vb : Byte) (vl : Bool) :
    ({ b.put_int32 vi with position := b.position } : ByteBuffer).get_int32.1 = .ok vi ∧
    ({ b.put_uint32 vu with position := b.position } : ByteBuffer).get_uint32.1 = .ok vu ∧
    ({ b.put_float vf with position := b.position } : ByteBuffer).get_float.1 = .ok vf ∧
    ({ b.put_byte vb with position := b.position } : ByteBuffer).get_byte.1 = .ok vb ∧
    ({ b.put_bool vl with position := b.position } : ByteBuffer).get_bool.1 = .ok vl := by
  refine ⟨?_, ?_, ?_, ?_, ?_⟩
  · have h1 : ({ b.put_int32 vi with position := b.position } : ByteBuffer) =
        ByteBuffer.mk (setBytes (b.ensure_capacity 4).buffer b.position
          (encLE32 ((vi % (2 ^ 32 : Int)).toNat))) b.position := by
      rw [put_int32_eq]
    rw [h1, get_int32_mk _ _ (by rw [length_word]; omega), word_readback, decLE32_encLE32,
      toSigned_emod_toNat vi hi1 hi2]
  · have h1 : ({ b.put_uint32 vu with position := b.position } : ByteBuffer) =
        ByteBuffer.mk (setBytes (b.ensure_capacity 4).buffer b.position (encLE32 vu))
          b.position := by
      rw [put_uint32_eq]
    rw [h1, get_uint32_mk _ _ (by rw [length_word]; omega), word_readback, decLE32_encLE32,
      Nat.mod_eq_of_lt hu]
  · have h1 : ({ b.put_float vf with position := b.position } : ByteBuffer) =
        ByteBuffer.mk (setBytes (b.ensure_capacity 4).buffer b.position (encLE32 vf))
          b.position := by
      rw [put_float_eq]
    rw [h1, get_float_mk _ _ (by rw [length_word]; omega), word_readback, decLE32_encLE32,
      Nat.mod_eq_of_lt hf]
  · have h1 : ({ b.put_byte vb with position := b.position } : ByteBuffer) =
        ByteBuffer.mk ((b.ensure_capacity 1).buffer.set b.position vb) b.position := by
      rw [put_byte_eq]
    have hlen : b.position + 1 ≤ ((b.ensure_capacity 1).buffer.set b.position vb).length := by
      rw [List.length_set, ensure_capacity_length]; omega
    rw [h1, get_byte_mk _ _ hlen,
      byte_set_getD _ _ _ (by rw [List.length_set] at hlen; omega)]
  · have h1 : ({ b.put_bool vl with position := b.position } : ByteBuffer) =
        ByteBuffer.mk ((b.ensure_capacity 1).buffer.set b.position
          (if vl then 1 else 0)) b.position := by
      rw [put_bool, put_byte_eq]
    have hlen : b.position + 1 ≤
        ((b.ensure_capacity 1).buffer.set b.position (if vl then (1 : Byte) else 0)).length := by
      rw [List.length_set, ensure_capacity_length]; omega
    rw [h1, get_bool, get_byte_mk _ _ hlen,
      byte_set_getD _ _ _ (by rw [List.length_set] at hlen; omega)]
    cases vl <;> rfl

end ByteBuffer

/-! ### Scalar read characterization (C6), capacity discipline (C7), hex dump (C8) -/

namespace ByteBuffer

/-- C6: for each fixed-width scalar read, failure is `BufferUnderflow` and
happens exactly when fewer than `width` bytes remain past the cursor;
otherwise the little-endian value at `[cursor, cursor+width)` is returned
and the cursor advances by `width`; `get_bool` goes through `get_byte` and
is true exactly on a nonzero byte. -/
theorem scalar_get_characterization (b : ByteBuffer) :
    (b.get_int32.1 = .err .bufferUnderflow ↔ b.position + 4 > b.buffer.length) ∧
    (b.position + 4 ≤ b.buffer.length →
      b.get_int32 = (.ok (toSigned (decLE32 ((b.buffer.drop b.position).take 4))),
                     { b with position := b.position + 4 })) ∧
    (b.get_uint32.1 = .err .bufferUnderflow ↔ b.position + 4 > b.buffer.length) ∧
    (b.position + 4 ≤ b.buffer.length →
      b.get_uint32 = (.ok (decLE32 ((b.buffer.drop b.position).take 4)),
                      { b with position := b.position + 4 })) ∧
    (b.get_float.1 = .err .bufferUnderflow ↔ b.position + 4 > b.buffer.length) ∧
    (b.position + 4 ≤ b.buffer.length →
      b.get_float = (.ok (decLE32 ((b.buffer.drop b.position).take 4)),
                     { b with position := b.position + 4 })) ∧
    (b.get_byte.1 = .err .bufferUnderflow ↔ b.position + 1 > b.buffer.length) ∧
    (b.position + 1 ≤ b.buffer.length →
      b.get_byte = (.ok (b.buffer.getD b.position 0), { b with position := b.position + 1 })) ∧
    (∀ v b1, b.get_byte = (.ok v, b1) → b.get_bool = (.ok (v.val != 0), b1)) ∧
    (∀ e b1, b.get_byte = (.err e, b1) → b.get_bool = (.err e, b1)) := by
  refine ⟨?_, get_int32_of_le b, ?_, get_uint32_of_le b, ?_, get_float_of_le b, ?_,
    get_byte_of_le b, ?_, ?_⟩
  · constructor
    · intro h
      by_contra hc
      rw [get_int32_of_le b (by omega)] at h
      simp at h
    · intro h
      simp only [get_int32]
      rw [if_pos h]
  · constructor
    · intro h
      by_contra hc
      rw [get_uint32_of_le b (by omega)] at h
      simp at h
    · intro h
      simp only [get_uint32]
      rw [if_pos h]
  · constructor
    · intro h
      by_contra hc
      rw [get_float_of_le b (by omega)] at h
      simp at h
    · intro h
      simp only [get_float]
      rw [if_pos h]
  · constructor
    · intro h
      by_contra hc
      rw [get_byte_of_le b (by omega)] at h
      simp at h
    · intro h
      simp only [get_byte]
      rw [if_pos h]
  · intro v b1 h
    simp only [get_bool, h]
  · intro e b1 h
    simp only [get_bool, h]

theorem put_int32_position (b : ByteBuffer) (v : Int) :
    (b.put_int32 v).position = b.position + 4 := by
  rw [put_int32_eq]

theorem put_uint32_position (b : ByteBuffer) (v : Nat) :
    (b.put_uint32 v).position = b.position + 4 := by
  rw [put_uint32_eq]

theorem put_float_position (b : ByteBuffer) (v : Nat) :
    (b.put_float v).position = b.position + 4 := by
  rw [put_float_eq]

theorem put_byte_position (b : ByteBuffer) (v : Byte) :
    (b.put_byte v).position = b.position + 1 := by
  rw [put_byte_eq]

theorem put_string_eq (b : ByteBuffer) (s : List Byte) :
    b.put_string s =
      { buffer := setBytes
          ((b.put_int32 (toSigned (s.length % 2 ^ 32))).ensure_capacity s.length).buffer
          (b.position + 4) s,
        position := b.position + 4 + s.length } := by
  simp only [put_string]
  have hpos : ((b.put_int32 (toSigned (s.length % 2 ^ 32))).ensure_capacity s.length).position =
      b.position + 4 := by
    rw [ensure_capacity_position, put_int32_position]
  have hlen : ((b.put_int32 (toSigned (s.length % 2 ^ 32))).ensure_capacity s.length).position
      + s.length ≤
      ((b.put_int32 (toSigned (s.length % 2 ^ 32))).ensure_capacity s.length).buffer.length := by
    rw [hpos, ensure_capacity_length, put_int32_position]
    omega
  rw [foldl_put_byte s _ hlen, hpos]

theorem put_string_position (b : ByteBuffer) (s : List Byte) :
    (b.put_string s).position = b.position + 4 + s.length := by
  rw [put_string_eq]

theorem put_vector_position (b : ByteBuffer) (t : Nat × Nat × Nat) :
    (b.put_vector t).position = b.position + 12 := by
  simp only [put_vector, put_float_position]

theorem put_rotator_position (b : ByteBuffer) (t : Nat × Nat × Nat) :
    (b.put_rotator t).position = b.position + 12 := by
  simp only [put_rotator, put_float_position]

/-- C7: `ensure_capacity` grows storage to exactly `cursor + n` with a
zero-filled tail when needed, is the identity otherwise, never shrinks and
never moves the cursor; every put is total and advances the cursor by
exactly the width it wrote, so chained puts append contiguously. -/
theorem capacity_growth_put_discipline (b : ByteBuffer) (n : Nat) (vi : Int) (vu vf : Nat)
    (vb : Byte) (vl : Bool) (s : List Byte) (t : Nat × Nat × Nat) :
    (b.ensure_capacity n).position = b.position ∧
    (b.position + n > b.buffer.length →
      (b.ensure_capacity n).buffer =
        b.buffer ++ List.replicate (b.position + n - b.buffer.length) 0 ∧
      (b.ensure_capacity n).buffer.length = b.position + n) ∧
    (b.position + n ≤ b.buffer.length → b.ensure_capacity n = b) ∧
    b.buffer.length ≤ (b.ensure_capacity n).buffer.length ∧
    (b.put_int32 vi).position = b.position + 4 ∧
    (b.put_uint32 vu).position = b.position + 4 ∧
    (b.put_float vf).position = b.position + 4 ∧
    (b.put_byte vb).position = b.position + 1 ∧
    (b.put_bool vl).position = b.position + 1 ∧
    (b.put_string s).position = b.position + 4 + s.length ∧
    (b.put_vector t).position = b.position + 12 ∧
    (b.put_rotator t).position = b.position + 12 := by
  refine ⟨ensure_capacity_position b n, ?_, ensure_capacity_of_le b n, ?_,
    put_int32_position b vi, put_uint32_position b vu, put_float_position b vf,
    put_byte_position b vb, ?_, put_string_position b s,
    put_vector_position b t, put_rotator_position b t⟩
  · intro h
    constructor
    · simp only [ensure_capacity]
      rw [if_pos h]
    · rw [ensure_capacity_length]; omega
  · rw [ensure_capacity_length]; omega
  · rw [put_bool, put_byte_position]

theorem hexDigit_mem (n : Nat) (h : n < 16) :
    (Char.ofNat 48 ≤ hexDigit n ∧ hexDigit n ≤ Char.ofNat 57) ∨
    (Char.ofNat 97 ≤ hexDigit n ∧ hexDigit n ≤ Char.ofNat 102) := by
  interval_cases n <;> decide

/-- C8: `to_hex` is the concatenation, in storage order, of exactly two
lowercase hex digits per byte, with no separators; on a fresh buffer after
`put_int32(12345)` it is the eight characters 39300000. -/
theorem to_hex_format (b : ByteBuffer) :
    (b.to_hex).data =
      b.buffer.flatMap (fun x => [hexDigit (x.val / 16), hexDigit (x.val % 16)]) ∧
    (b.to_hex).length = 2 * b.buffer.length ∧
    (∀ c ∈ (b.to_hex).data,
      (Char.ofNat 48 ≤ c ∧ c ≤ Char.ofNat 57) ∨
      (Char.ofNat 97 ≤ c ∧ c ≤ Char.ofNat 102)) ∧
    ((ByteBuffer.new none).put_int32 12345).to_hex = "39300000" := by
  have hdata : (b.to_hex).data =
      b.buffer.flatMap (fun x => [hexDigit (x.val / 16), hexDigit (x.val % 16)]) := by
    simp only [to_hex, String.data_join, List.map_map, List.flatMap_def]
    rfl
  refine ⟨hdata, ?_, ?_, by decide⟩
  · rw [String.length, hdata, List.flatMap_def, List.length_flatten, List.map_map]
    have : (List.length ∘ fun x : Byte =>
        [hexDigit (x.val / 16), hexDigit (x.val % 16)]) = Function.const Byte 2 := by
      funext x
      rfl
    rw [this, List.map_const, List.sum_replicate, smul_eq_mul]
    omega
  · intro c hc
    rw [hdata] at hc
    simp only [List.mem_flatMap, List.mem_cons, List.mem_singleton] at hc
    obtain ⟨x, _, hcx⟩ := hc
    rcases hcx with h | h | h
    · rw [h]; exact hexDigit_mem _ (by omega)
    · rw [h]; exact hexDigit_mem _ (by omega)
    · cases h

end ByteBuffer

/-! ### Vector and rotator wire equivalence (C9) -/

namespace ByteBuffer

theorem put_float_length (b : ByteBuffer) (v : Nat) :
    (b.put_float v).buffer.length = max b.buffer.length (b.position + 4) := by
  rw [put_float_eq]
  exact length_word b v

theorem getElem?_put_float_in (b : ByteBuffer) (v : Nat) (j : Nat) (hj : j < 4) :
    (b.put_float v).buffer[b.position + j]? = (encLE32 v)[j]? := by
  rw [put_float_eq]
  show (setBytes (b.ensure_capacity 4).buffer b.position (encLE32 v))[b.position + j]? = _
  rw [getElem?_setBytes, if_pos ?_]
  · congr 1
    omega
  · refine ⟨by omega, by rw [length_encLE32]; omega, ?_⟩
    rw [ensure_capacity_length]
    omega

theorem getElem?_put_float_lt (b : ByteBuffer) (v : Nat) (j : Nat) (hj : j < b.position)
    (hlen : j < b.buffer.length) :
    (b.put_float v).buffer[j]? = b.buffer[j]? := by
  rw [put_float_eq]
  show (setBytes (b.ensure_capacity 4).buffer b.position (encLE32 v))[j]? = _
  rw [getElem?_setBytes, if_neg (by omega)]
  rw [getElem?_ensure_capacity, if_pos hlen]

/-- C9: `put_vector` and `put_rotator` are the same state transformer
(three little-endian 4-byte floats at the cursor, in order, cursor advanced
by 12) and `get_vector` and `get_rotator` are the same reader. -/
theorem vector_rotator_equivalence (b : ByteBuffer) (x y z : Nat) :
    b.put_vector (x, y, z) = b.put_rotator (x, y, z) ∧
    b.get_vector = b.get_rotator ∧
    (b.put_vector (x, y, z)).position = b.position + 12 ∧
    ((b.put_vector (x, y, z)).buffer.drop b.position).take 12 =
      encLE32 x ++ encLE32 y ++ encLE32 z := by
  refine ⟨rfl, rfl, put_vector_position b (x, y, z), ?_⟩
  have h12 : (encLE32 x ++ encLE32 y ++ encLE32 z).length = 12 := rfl
  rw [show (12 : Nat) = (encLE32 x ++ encLE32 y ++ encLE32 z).length from rfl]
  apply take_drop_eq_of_getElem?
  intro j hj
  rw [h12] at hj
  simp only [put_vector]
  have hp1 : (b.put_float x).position = b.position + 4 := put_float_position b x
  have hp2 : ((b.put_float x).put_float y).position = b.position + 8 := by
    rw [put_float_position, hp1]
  have hl1 : b.position + 4 ≤ (b.put_float x).buffer.length := by
    rw [put_float_length]; omega
  have hl2 : b.position + 8 ≤ ((b.put_float x).put_float y).buffer.length := by
    rw [put_float_length, hp1, put_float_length]; omega
  rcases Nat.lt_or_ge j 4 with h4 | h4
  · -- first word: untouched by the second and third writes
    have e3 : (((b.put_float x).put_float y).put_float z).buffer[b.position + j]? =
        ((b.put_float x).put_float y).buffer[b.position + j]? := by
      have := getElem?_put_float_lt ((b.put_float x).put_float y) z (b.position + j)
        (by rw [hp2]; omega) (by omega)
      exact this
    have e2 : ((b.put_float x).put_float y).buffer[b.position + j]? =
        (b.put_float x).buffer[b.position + j]? :=
      getElem?_put_float_lt (b.put_float x) y (b.position + j)
        (by rw [hp1]; omega) (by omega)
    have e1 : (b.put_float x).buffer[b.position + j]? = (encLE32 x)[j]? :=
      getElem?_put_float_in b x j h4
    rw [e3, e2, e1]
    rw [List.getElem?_append, if_pos (by rw [List.length_append, length_encLE32, length_encLE32]; omega),
      List.getElem?_append, if_pos (by rw [length_encLE32]; omega)]
  · rcases Nat.lt_or_ge j 8 with h8 | h8
    · -- second word
      have e3 : (((b.put_float x).put_float y).put_float z).buffer[b.position + j]? =
          ((b.put_float x).put_float y).buffer[b.position + j]? :=
        getElem?_put_float_lt ((b.put_float x).put_float y) z (b.position + j)
          (by rw [hp2]; omega) (by omega)
      have e2 : ((b.put_float x).put_float y).buffer[b.position + j]? =
          (encLE32 y)[j - 4]? := by
        have := getElem?_put_float_in (b.put_float x) y (j - 4) (by omega)
        rw [hp1] at this
        rw [show b.position + j = b.position + 4 + (j - 4) from by omega]
        exact this
      rw [e3, e2]
      rw [List.getElem?_append, if_pos (by rw [List.length_append, length_encLE32, length_encLE32]; omega),
        List.getElem?_append, if_neg (by rw [length_encLE32]; omega)]
      rw [length_encLE32]
    · -- third word
      have e3 : (((b.put_float x).put_float y).put_float z).buffer[b.position + j]? =
          (encLE32 z)[j - 8]? := by
        have := getElem?_put_float_in ((b.put_float x).put_float y) z (j - 8) (by omega)
        rw [hp2] at this
        rw [show b.position + j = b.position + 8 + (j - 8) from by omega]
        exact this
      rw [e3]
      rw [List.getElem?_append, if_neg (by rw [List.length_append, length_encLE32, length_encLE32]; omega)]
      rw [List.length_append, length_encLE32, length_encLE32]

end ByteBuffer

/-! ### Frame property of writes (C10) -/

namespace ByteBuffer

theorem frames_rfl (b : ByteBuffer) : Frames b b :=
  ⟨le_refl _, le_refl _, fun _ _ _ => rfl, fun _ _ _ => rfl, fun _ h1 h2 _ => by omega⟩

theorem frames_trans {a b c : ByteBuffer} (h1 : Frames a b) (h2 : Frames b c) :
    Frames a c := by
  obtain ⟨hp1, hl1, hlo1, hhi1, hz1⟩ := h1
  obtain ⟨hp2, hl2, hlo2, hhi2, hz2⟩ := h2
  refine ⟨le_trans hp1 hp2, le_trans hl1 hl2, ?_, ?_, ?_⟩
  · intro j hj hja
    rw [hlo2 j (by omega) (by omega), hlo1 j hj hja]
  · intro j hj hja
    rw [hhi2 j (by omega) (by omega), hhi1 j (by omega) hja]
  · intro j hja hjc hout
    rcases Nat.lt_or_ge j b.buffer.length with hb | hb
    · -- the byte was created by the first step and survives the second
      have hz := hz1 j hja hb (by omega)
      rcases hout with hlt | hge
      · rw [hlo2 j (by omega) hb, hz]
      · rw [hhi2 j hge hb, hz]
    · exact hz2 j hb hjc (by omega)

theorem frames_ensure_capacity (b : ByteBuffer) (n : Nat) : Frames b (b.ensure_capacity n) := by
  refine ⟨by rw [ensure_capacity_position], by rw [ensure_capacity_length]; omega, ?_, ?_, ?_⟩
  · intro j _ hja
    rw [getElem?_ensure_capacity, if_pos hja]
  · intro j _ hja
    rw [getElem?_ensure_capacity, if_pos hja]
  · intro j hja hj _
    rw [getElem?_ensure_capacity, if_neg (by omega), if_pos hj]

theorem frames_write (b : ByteBuffer) (vs : List Byte) :
    Frames b (ByteBuffer.mk
      (setBytes (b.ensure_capacity vs.length).buffer b.position vs)
      (b.position + vs.length)) := by
  have hlen : (setBytes (b.ensure_capacity vs.length).buffer b.position vs).length
      = max b.buffer.length (b.position + vs.length) := by
    rw [length_setBytes, ensure_capacity_length]
  refine ⟨?_, ?_, ?_, ?_, ?_⟩
  · show b.position ≤ b.position + vs.length
    omega
  · show b.buffer.length ≤ (setBytes _ _ _).length
    rw [hlen]
    omega
  · intro j hj hja
    show (setBytes _ _ _)[j]? = _
    rw [getElem?_setBytes, if_neg (by omega), getElem?_ensure_capacity, if_pos hja]
  · intro j hj hja
    have hj2 : b.position + vs.length ≤ j := hj
    show (setBytes _ _ _)[j]? = _
    rw [getElem?_setBytes, if_neg (by omega), getElem?_ensure_capacity, if_pos hja]
  · intro j hja hj hout
    have hj2 : j < (setBytes (b.ensure_capacity vs.length).buffer b.position vs).length := hj
    have hout2 : j < b.position ∨ b.position + vs.length ≤ j := hout
    have hj3 : j < (b.ensure_capacity vs.length).buffer.length := by
      rw [hlen] at hj2
      rw [ensure_capacity_length]
      omega
    show (setBytes _ _ _)[j]? = some 0
    rw [getElem?_setBytes, if_neg (by omega), getElem?_ensure_capacity, if_neg (by omega),
      if_pos hj3]

theorem frames_put_int32 (b : ByteBuffer) (v : Int) : Frames b (b.put_int32 v) := by
  rw [put_int32_eq]
  exact frames_write b (encLE32 ((v % (2 ^ 32 : Int)).toNat))

theorem frames_put_uint32 (b : ByteBuffer) (v : Nat) : Frames b (b.put_uint32 v) := by
  rw [put_uint32_eq]
  exact frames_write b (encLE32 v)

theorem frames_put_float (b : ByteBuffer) (v : Nat) : Frames b (b.put_float v) := by
  rw [put_float_eq]
  exact frames_write b (encLE32 v)

theorem frames_put_byte (b : ByteBuffer) (v : Byte) : Frames b (b.put_byte v) := by
  rw [put_byte_eq]
  exact frames_write b [v]

theorem frames_foldl_put_byte (s : List Byte) (b : ByteBuffer) :
    Frames b (s.foldl (fun acc byte => acc.put_byte byte) b) := by
  induction s generalizing b with
  | nil => exact frames_rfl b
  | cons v rest ih =>
    simp only [List.foldl_cons]
    exact frames_trans (frames_put_byte b v) (ih (b.put_byte v))

theorem frames_put_string (b : ByteBuffer) (s : List Byte) : Frames b (b.put_string s) := by
  simp only [put_string]
  exact frames_trans (frames_put_int32 b _)
    (frames_trans (frames_ensure_capacity _ s.length) (frames_foldl_put_byte s _))

/-- C10: every write call only changes the bytes of the region
`[cursor at entry, cursor at exit)`: bytes below the entry cursor and bytes
at or past the exit cursor keep their values, and bytes that exist only
because the storage grew, outside the written region, are zero. -/
theorem put_frame_property (b : ByteBuffer) (vi : Int) (vu vf : Nat) (vb : Byte)
    (vl : Bool) (s : List Byte) (t : Nat × Nat × Nat) :
    Frames b (b.put_int32 vi) ∧
    Frames b (b.put_uint32 vu) ∧
    Frames b (b.put_float vf) ∧
    Frames b (b.put_byte vb) ∧
    Frames b (b.put_bool vl) ∧
    Frames b (b.put_string s) ∧
    Frames b (b.put_vector t) ∧
    Frames b (b.put_rotator t) := by
  refine ⟨frames_put_int32 b vi, frames_put_uint32 b vu, frames_put_float b vf,
    frames_put_byte b vb, frames_put_byte b _, frames_put_string b s, ?_, ?_⟩
  · exact frames_trans (frames_put_float b t.1)
      (frames_trans (frames_put_float _ t.2.1) (frames_put_float _ t.2.2))
  · exact frames_trans (frames_put_float b t.1)
      (frames_trans (frames_put_float _ t.2.1) (frames_put_float _ t.2.2))

end ByteBuffer

/-! ### Reachable-state invariant (C5) -/

namespace ByteBuffer

theorem get_int32_cases (b : ByteBuffer) :
    (b.get_int32 = (.err .bufferUnderflow, b) ∧ b.position + 4 > b.buffer.length) ∨
    (b.position + 4 ≤ b.buffer.length ∧
     b.get_int32 = (.ok (toSigned (decLE32 ((b.buffer.drop b.position).take 4))),
       { b with position := b.position + 4 })) := by
  by_cases h : b.position + 4 > b.buffer.length
  · refine .inl ⟨?_, h⟩
    simp only [get_int32]
    rw [if_pos h]
  · exact .inr ⟨by omega, get_int32_of_le b (by omega)⟩

theorem get_float_cases (b : ByteBuffer) :
    (b.get_float = (.err .bufferUnderflow, b) ∧ b.position + 4 > b.buffer.length) ∨
    (b.position + 4 ≤ b.buffer.length ∧
     b.get_float = (.ok (decLE32 ((b.buffer.drop b.position).take 4)),
       { b with position := b.position + 4 })) := by
  by_cases h : b.position + 4 > b.buffer.length
  · refine .inl ⟨?_, h⟩
    simp only [get_float]
    rw [if_pos h]
  · exact .inr ⟨by omega, get_float_of_le b (by omega)⟩

theorem get_int32_snd_le (b : ByteBuffer) (h : b.position ≤ b.buffer.length) :
    b.get_int32.2.position ≤ b.get_int32.2.buffer.length := by
  rcases get_int32_cases b with ⟨heq, _⟩ | ⟨hle, heq⟩ <;> rw [heq]
  · exact h
  · exact hle

theorem get_uint32_snd_le (b : ByteBuffer) (h : b.position ≤ b.buffer.length) :
    b.get_uint32.2.position ≤ b.get_uint32.2.buffer.length := by
  simp only [get_uint32]
  split
  · exact h
  · show b.position + 4 ≤ b.buffer.length
    omega

theorem get_float_snd_le (b : ByteBuffer) (h : b.position ≤ b.buffer.length) :
    b.get_float.2.position ≤ b.get_float.2.buffer.length := by
  simp only [get_float]
  split
  · exact h
  · show b.position + 4 ≤ b.buffer.length
    omega

theorem get_byte_snd_le (b : ByteBuffer) (h : b.position ≤ b.buffer.length) :
    b.get_byte.2.position ≤ b.get_byte.2.buffer.length := by
  simp only [get_byte]
  split
  · exact h
  · show b.position + 1 ≤ b.buffer.length
    omega

theorem get_bool_snd_le (b : ByteBuffer) (h : b.position ≤ b.buffer.length) :
    b.get_bool.2.position ≤ b.get_bool.2.buffer.length := by
  have hb := get_byte_snd_le b h
  simp only [get_bool]
  rcases heq : b.get_byte with ⟨r, b1⟩
  rw [heq] at hb
  cases r <;> exact hb

theorem get_string_snd_le (b : ByteBuffer) (h : b.position ≤ b.buffer.length) :
    b.get_string.2.position ≤ b.get_string.2.buffer.length := by
  simp only [get_string]
  rcases get_int32_cases b with ⟨heq, _⟩ | ⟨hle, heq⟩ <;> rw [heq]
  · exact h
  · dsimp only
    split
    · show b.position + 4 ≤ b.buffer.length
      omega
    · split
      · show b.position + 4 ≤ b.buffer.length
        omega
      · split
        · show _ % 2 ^ 64 ≤ b.buffer.length
          omega
        · show b.position + 4 ≤ b.buffer.length
          omega

theorem get_vector_snd_le (b : ByteBuffer) (h : b.position ≤ b.buffer.length) :
    b.get_vector.2.position ≤ b.get_vector.2.buffer.length := by
  simp only [get_vector]
  rcases get_float_cases b with ⟨heq, _⟩ | ⟨hle1, heq⟩ <;> rw [heq] <;> dsimp only
  · exact h
  · rcases get_float_cases ({ b with position := b.position + 4 } : ByteBuffer)
      with ⟨heq2, _⟩ | ⟨hle2, heq2⟩ <;> rw [heq2] <;> dsimp only
    · show b.position + 4 ≤ b.buffer.length
      omega
    · rcases get_float_cases ({ b with position := b.position + 4 + 4 } : ByteBuffer)
        with ⟨heq3, _⟩ | ⟨hle3, heq3⟩ <;> rw [heq3] <;> dsimp only
      · show b.position + 4 + 4 ≤ b.buffer.length
        exact hle2
      · show b.position + 4 + 4 + 4 ≤ b.buffer.length
        exact hle3

theorem get_rotator_snd_le (b : ByteBuffer) (h : b.position ≤ b.buffer.length) :
    b.get_rotator.2.position ≤ b.get_rotator.2.buffer.length := by
  simp only [get_rotator]
  rcases get_float_cases b with ⟨heq, _⟩ | ⟨hle1, heq⟩ <;> rw [heq] <;> dsimp only
  · exact h
  · rcases get_float_cases ({ b with position := b.position + 4 } : ByteBuffer)
      with ⟨heq2, _⟩ | ⟨hle2, heq2⟩ <;> rw [heq2] <;> dsimp only
    · show b.position + 4 ≤ b.buffer.length
      omega
    · rcases get_float_cases ({ b with position := b.position + 4 + 4 } : ByteBuffer)
        with ⟨heq3, _⟩ | ⟨hle3, heq3⟩ <;> rw [heq3] <;> dsimp only
      · show b.position + 4 + 4 ≤ b.buffer.length
        exact hle2
      · show b.position + 4 + 4 + 4 ≤ b.buffer.length
        exact hle3

/-- C5: every buffer reachable through the public API keeps the invariant
`cursor ≤ storage.length` after each call. -/
theorem reachable_cursor_le_length (b : ByteBuffer) (h : Reachable b) :
    b.position ≤ b.buffer.length := by
  induction h with
  | new data => cases data <;> simp [ByteBuffer.new]
  | put_int32 v _ _ =>
    rw [put_int32_position, put_int32_eq]
    show _ ≤ (setBytes _ _ _).length
    rw [length_word]
    omega
  | put_uint32 v _ _ =>
    rw [put_uint32_position, put_uint32_eq]
    show _ ≤ (setBytes _ _ _).length
    rw [length_word]
    omega
  | put_float v _ _ =>
    rw [put_float_position, put_float_eq]
    show _ ≤ (setBytes _ _ _).length
    rw [length_word]
    omega
  | put_byte v _ _ =>
    rw [put_byte_position, put_byte_eq]
    show _ ≤ (List.set _ _ _).length
    rw [List.length_set, ensure_capacity_length]
    omega
  | put_bool v _ _ =>
    rw [put_bool, put_byte_position, put_byte_eq]
    show _ ≤ (List.set _ _ _).length
    rw [List.length_set, ensure_capacity_length]
    omega
  | put_string s _ _ =>
    rw [put_string_position, put_string_eq]
    show _ ≤ (setBytes _ _ _).length
    rw [length_setBytes, ensure_capacity_length, put_int32_position]
    exact le_max_right _ _
  | put_vector t _ _ =>
    rw [put_vector_position]
    show _ ≤ (put_float _ _).buffer.length
    rw [put_float_length, put_float_position, put_float_length, put_float_position,
      put_float_length]
    omega
  | put_rotator t _ _ =>
    rw [put_rotator_position]
    show _ ≤ (put_float _ _).buffer.length
    rw [put_float_length, put_float_position, put_float_length, put_float_position,
      put_float_length]
    omega
  | get_int32 _ ih => exact get_int32_snd_le _ ih
  | get_uint32 _ ih => exact get_uint32_snd_le _ ih
  | get_byte _ ih => exact get_byte_snd_le _ ih
  | get_bool _ ih => exact get_bool_snd_le _ ih
  | get_string _ ih => exact get_string_snd_le _ ih
  | get_float _ ih => exact get_float_snd_le _ ih
  | get_vector _ ih => exact get_vector_snd_le _ ih
  | get_rotator _ ih => exact get_rotator_snd_le _ ih

end ByteBuffer

/-! ### Error-state discipline of reads (C1), get_string failure modes (C2), string round-trip (C4) -/

namespace ByteBuffer

theorem get_int32_err_state (b : ByteBuffer) (e : BBErr) (b1 : ByteBuffer)
    (he : b.get_int32 = (.err e, b1)) : b1 = b := by
  simp only [get_int32] at he
  split at he
  · exact (Prod.mk.inj he).2.symm
  · simp at he

theorem get_uint32_err_state (b : ByteBuffer) (e : BBErr) (b1 : ByteBuffer)
    (he : b.get_uint32 = (.err e, b1)) : b1 = b := by
  simp only [get_uint32] at he
  split at he
  · exact (Prod.mk.inj he).2.symm
  · simp at he

theorem get_float_err_state (b : ByteBuffer) (e : BBErr) (b1 : ByteBuffer)
    (he : b.get_float = (.err e, b1)) : b1 = b := by
  simp only [get_float] at he
  split at he
  · exact (Prod.mk.inj he).2.symm
  · simp at he

theorem get_byte_err_state (b : ByteBuffer) (e : BBErr) (b1 : ByteBuffer)
    (he : b.get_byte = (.err e, b1)) : b1 = b := by
  simp only [get_byte] at he
  split at he
  · exact (Prod.mk.inj he).2.symm
  · simp at he

theorem get_bool_err_state (b : ByteBuffer) (e : BBErr) (b1 : ByteBuffer)
    (he : b.get_bool = (.err e, b1)) : b1 = b := by
  simp only [get_bool] at he
  rcases heq : b.get_byte with ⟨r, b2⟩
  rw [heq] at he
  cases r with
  | ok v => simp at he
  | err e2 =>
    have h2 := (Prod.mk.inj he).2
    rw [← h2]
    exact get_byte_err_state b e2 b2 heq
  | panicked => simp at he

theorem get_string_err_state (b : ByteBuffer) (e : BBErr) (b1 : ByteBuffer)
    (he : b.get_string = (.err e, b1)) :
    b1.buffer = b.buffer ∧
    b1.position = (if b.position + 4 > b.buffer.length then b.position else b.position + 4) := by
  simp only [get_string] at he
  rcases get_int32_cases b with ⟨heq, hgt⟩ | ⟨hle, heq⟩ <;> rw [heq] at he <;> dsimp only at he
  · obtain ⟨-, h2⟩ := Prod.mk.inj he
    subst h2
    exact ⟨rfl, by rw [if_pos hgt]⟩
  · rw [if_neg (by omega)]
    split at he
    · obtain ⟨-, h2⟩ := Prod.mk.inj he
      subst h2
      exact ⟨rfl, rfl⟩
    · split at he
      · simp at he
      · split at he
        · simp at he
        · obtain ⟨-, h2⟩ := Prod.mk.inj he
          subst h2
          exact ⟨rfl, rfl⟩

theorem get_vector_err_state (b : ByteBuffer) (e : BBErr) (b1 : ByteBuffer)
    (he : b.get_vector = (.err e, b1)) :
    b1.buffer = b.buffer ∧
    ((b1.position = b.position ∧ b.position + 4 > b.buffer.length) ∨
     (b1.position = b.position + 4 ∧ b.position + 4 ≤ b.buffer.length ∧
       b.position + 8 > b.buffer.length) ∨
     (b1.position = b.position + 8 ∧ b.position + 8 ≤ b.buffer.length ∧
       b.position + 12 > b.buffer.length)) := by
  simp only [get_vector] at he
  rcases get_float_cases b with ⟨heq1, hgt1⟩ | ⟨hle1, heq1⟩ <;> rw [heq1] at he <;> dsimp only at he
  · obtain ⟨-, h2⟩ := Prod.mk.inj he
    subst h2
    exact ⟨rfl, .inl ⟨rfl, hgt1⟩⟩
  · rcases get_float_cases ({ b with position := b.position + 4 } : ByteBuffer)
      with ⟨heq2, hgt2⟩ | ⟨hle2, heq2⟩ <;> rw [heq2] at he <;> dsimp only at he
    · obtain ⟨-, h2⟩ := Prod.mk.inj he
      subst h2
      exact ⟨rfl, .inr (.inl ⟨rfl, hle1, by exact hgt2⟩)⟩
    · rcases get_float_cases ({ b with position := b.position + 4 + 4 } : ByteBuffer)
        with ⟨heq3, hgt3⟩ | ⟨hle3, heq3⟩ <;> rw [heq3] at he <;> dsimp only at he
      · obtain ⟨-, h2⟩ := Prod.mk.inj he
        subst h2
        refine ⟨rfl, .inr (.inr ⟨rfl, by exact hle2, by
          have : b.position + 4 + 4 + 4 > b.buffer.length := hgt3
          omega⟩)⟩
      · simp at he

theorem get_rotator_err_state (b : ByteBuffer) (e : BBErr) (b1 : ByteBuffer)
    (he : b.get_rotator = (.err e, b1)) :
    b1.buffer = b.buffer ∧
    ((b1.position = b.position ∧ b.position + 4 > b.buffer.length) ∨
     (b1.position = b.position + 4 ∧ b.position + 4 ≤ b.buffer.length ∧
       b.position + 8 > b.buffer.length) ∨
     (b1.position = b.position + 8 ∧ b.position + 8 ≤ b.buffer.length ∧
       b.position + 12 > b.buffer.length)) := by
  have hvr : b.get_rotator = b.get_vector := rfl
  rw [hvr] at he
  exact get_vector_err_state b e b1 he

end ByteBuffer

namespace ByteBuffer

/-- C1 is false as stated: on the buffer `[5,0,0,0]` (length prefix 5 with
no body) `get_string` fails with `BufferUnderflow` but leaves the cursor at
4, not at its starting value 0. -/
theorem get_string_failure_moves_cursor :
    (ByteBuffer.mk [5, 0, 0, 0] 0).get_string =
      (.err .bufferUnderflow, ByteBuffer.mk [5, 0, 0, 0] 4) := by decide

/-- C1 (amended): a failed read never changes the storage; the scalar reads
(`get_int32`, `get_uint32`, `get_float`, `get_byte`, `get_bool`) leave the
whole buffer state unchanged on failure; `get_string` failing on the length
prefix leaves the cursor unchanged while a failure after the prefix leaves
the cursor exactly 4 past its starting value; `get_vector`/`get_rotator`
failing on the k-th float leave the cursor exactly 4(k-1) past its starting
value. -/
theorem get_error_state_discipline (b : ByteBuffer) :
    (∀ e b1, b.get_int32 = (.err e, b1) → b1 = b) ∧
    (∀ e b1, b.get_uint32 = (.err e, b1) → b1 = b) ∧
    (∀ e b1, b.get_float = (.err e, b1) → b1 = b) ∧
    (∀ e b1, b.get_byte = (.err e, b1) → b1 = b) ∧
    (∀ e b1, b.get_bool = (.err e, b1) → b1 = b) ∧
    (∀ e b1, b.get_string = (.err e, b1) →
      b1.buffer = b.buffer ∧
      b1.position = (if b.position + 4 > b.buffer.length then b.position
        else b.position + 4)) ∧
    (∀ e b1, b.get_vector = (.err e, b1) →
      b1.buffer = b.buffer ∧
      ((b1.position = b.position ∧ b.position + 4 > b.buffer.length) ∨
       (b1.position = b.position + 4 ∧ b.position + 4 ≤ b.buffer.length ∧
         b.position + 8 > b.buffer.length) ∨
       (b1.position = b.position + 8 ∧ b.position + 8 ≤ b.buffer.length ∧
         b.position + 12 > b.buffer.length))) ∧
    (∀ e b1, b.get_rotator = (.err e, b1) →
      b1.buffer = b.buffer ∧
      ((b1.position = b.position ∧ b.position + 4 > b.buffer.length) ∨
       (b1.position = b.position + 4 ∧ b.position + 4 ≤ b.buffer.length ∧
         b.position + 8 > b.buffer.length) ∨
       (b1.position = b.position + 8 ∧ b.position + 8 ≤ b.buffer.length ∧
         b.position + 12 > b.buffer.length))) :=
  ⟨get_int32_err_state b, get_uint32_err_state b, get_float_err_state b,
   get_byte_err_state b, get_bool_err_state b, get_string_err_state b,
   get_vector_err_state b, get_rotator_err_state b⟩

/-- Witness for C1's amended statement at a concrete failing input. -/
theorem get_error_state_discipline_witness :
    (ByteBuffer.mk [1, 2] 1).get_int32 = (.err .bufferUnderflow, ByteBuffer.mk [1, 2] 1) ∧
    ByteBuffer.mk [1, 2] 1 = ByteBuffer.mk [1, 2] 1 :=
  ⟨by decide,
   (get_error_state_discipline (ByteBuffer.mk [1, 2] 1)).1 .bufferUnderflow
     (ByteBuffer.mk [1, 2] 1) (by decide)⟩

end ByteBuffer

namespace ByteBuffer

theorem decLE32_lt (l : List Byte) : decLE32 l < 2 ^ 32 := by
  unfold decLE32
  split
  · rename_i b0 b1 b2 b3
    have h0 := b0.isLt
    have h1 := b1.isLt
    have h2 := b2.isLt
    have h3 := b3.isLt
    omega
  · norm_num

theorem toSigned_bounds (u : Nat) (h : u < 2 ^ 32) :
    -2 ^ 31 ≤ toSigned u ∧ toSigned u < 2 ^ 31 := by
  unfold toSigned
  split <;> omega

/-- C2 is false as stated: the length prefix `[255,255,255,255]` decodes to
the negative int32 `-1`, yet `get_string` panics (out-of-range slice after
`usize` wrap-around) instead of returning `BufferUnderflow`. -/
theorem get_string_negative_length_panics :
    (ByteBuffer.mk [255, 255, 255, 255] 0).get_string =
      (.panicked, ByteBuffer.mk [255, 255, 255, 255] 4) ∧
    (ByteBuffer.mk [255, 255, 255, 255] 0).get_string.1 ≠ .err .bufferUnderflow := by
  constructor
  · decide
  · decide

/-- C2 (amended): when the length prefix is read successfully, a
nonnegative prefix fails with `BufferUnderflow` exactly when the body does
not fit, and when it fits fails with `InvalidEncoding` exactly when the
body is not valid UTF-8 (otherwise succeeding); a negative prefix,
sign-extended to `usize`, yields `BufferUnderflow` when the wrapped end
index exceeds the storage length and a panic (not `BufferUnderflow`)
otherwise; a buffer with fewer than 4 bytes past the cursor fails with
`BufferUnderflow` on the prefix itself. -/
theorem get_string_error_characterization (b : ByteBuffer)
    (hwf : b.buffer.length < 2 ^ 63) :
    (b.position + 4 > b.buffer.length → b.get_string = (.err .bufferUnderflow, b)) ∧
    (∀ v b1, b.get_int32 = (.ok v, b1) →
      (0 ≤ v →
        ((b.get_string.1 = .err .bufferUnderflow ↔ b1.position + v.toNat > b.buffer.length) ∧
         (b1.position + v.toNat ≤ b.buffer.length →
           ((b.get_string.1 = .err .invalidEncoding ↔
              utf8Valid ((b.buffer.drop b1.position).take v.toNat) = false) ∧
            (utf8Valid ((b.buffer.drop b1.position).take v.toNat) = true →
              b.get_string = (.ok ((b.buffer.drop b1.position).take v.toNat),
                { b1 with position := b1.position + v.toNat })))))) ∧
      (v < 0 →
        ((b1.position + intAsUsize v) % 2 ^ 64 > b.buffer.length →
          b.get_string = (.err .bufferUnderflow, b1)) ∧
        ((b1.position + intAsUsize v) % 2 ^ 64 ≤ b.buffer.length →
          b.get_string = (.panicked, b1)))) := by
  have h64 : (2 : Nat) ^ 64 = 18446744073709551616 := by norm_num
  have h63 : (2 : Nat) ^ 63 = 9223372036854775808 := by norm_num
  constructor
  · intro hgt
    have heq : b.get_int32 = (.err .bufferUnderflow, b) := by
      simp only [get_int32]
      rw [if_pos hgt]
    simp only [get_string]
    rw [heq]
  · intro v b1 he
    rcases get_int32_cases b with ⟨heq, _⟩ | ⟨hle, heq⟩
    · rw [heq] at he
      simp at he
    · rw [heq] at he
      obtain ⟨h0, h2⟩ := Prod.mk.inj he
      have h1 := RustOutcome.ok.inj h0
      subst h2
      subst h1
      dsimp only
      have hv1 : -2 ^ 31 ≤ toSigned (decLE32 ((b.buffer.drop b.position).take 4)) :=
        (toSigned_bounds _ (decLE32_lt _)).1
      have hv2 : toSigned (decLE32 ((b.buffer.drop b.position).take 4)) < 2 ^ 31 :=
        (toSigned_bounds _ (decLE32_lt _)).2
      have hred : b.get_string =
          (if (b.position + 4 +
                intAsUsize (toSigned (decLE32 ((b.buffer.drop b.position).take 4)))) % 2 ^ 64 >
              b.buffer.length
            then (.err .bufferUnderflow,
              ByteBuffer.mk b.buffer (b.position + 4))
            else if (b.position + 4 +
                intAsUsize (toSigned (decLE32 ((b.buffer.drop b.position).take 4)))) % 2 ^ 64 <
                b.position + 4
              then (.panicked, ByteBuffer.mk b.buffer (b.position + 4))
              else if utf8Valid ((b.buffer.drop (b.position + 4)).take
                  ((b.position + 4 +
                    intAsUsize (toSigned (decLE32 ((b.buffer.drop b.position).take 4)))) % 2 ^ 64
                    - (b.position + 4))) = true
                then (.ok ((b.buffer.drop (b.position + 4)).take
                    ((b.position + 4 +
                      intAsUsize (toSigned (decLE32 ((b.buffer.drop b.position).take 4)))) % 2 ^ 64
                      - (b.position + 4))),
                  ByteBuffer.mk b.buffer
                    ((b.position + 4 +
                      intAsUsize (toSigned (decLE32 ((b.buffer.drop b.position).take 4)))) % 2 ^ 64))
                else (.err .invalidEncoding, ByteBuffer.mk b.buffer (b.position + 4))) := by
        simp only [get_string]
        rw [heq]
      constructor
      · -- nonnegative length
        intro hv0
        have hlen : intAsUsize (toSigned (decLE32 ((b.buffer.drop b.position).take 4))) =
            (toSigned (decLE32 ((b.buffer.drop b.position).take 4))).toNat := by
          unfold intAsUsize
          have hm : toSigned (decLE32 ((b.buffer.drop b.position).take 4)) % (2 ^ 64 : Int) =
              toSigned (decLE32 ((b.buffer.drop b.position).take 4)) := by omega
          rw [hm]
        rw [hlen] at hred
        have hnowrap : (b.position + 4 +
            (toSigned (decLE32 ((b.buffer.drop b.position).take 4))).toNat) % 2 ^ 64 =
            b.position + 4 + (toSigned (decLE32 ((b.buffer.drop b.position).take 4))).toNat := by
          apply Nat.mod_eq_of_lt
          omega
        rw [hnowrap] at hred
        have hsub : b.position + 4 +
            (toSigned (decLE32 ((b.buffer.drop b.position).take 4))).toNat - (b.position + 4) =
            (toSigned (decLE32 ((b.buffer.drop b.position).take 4))).toNat := by omega
        rw [hsub] at hred
        constructor
        · rw [hred]
          by_cases hfit : b.position + 4 +
              (toSigned (decLE32 ((b.buffer.drop b.position).take 4))).toNat > b.buffer.length
          · rw [if_pos hfit]
            simp only [true_iff]
            exact hfit
          · rw [if_neg hfit, if_neg (by omega)]
            constructor
            · intro hbad
              split at hbad <;> simp at hbad
            · intro hbad
              omega
        · intro hfit
          constructor
          · rw [hred, if_neg (by omega), if_neg (by omega)]
            by_cases hval : utf8Valid ((b.buffer.drop (b.position + 4)).take
                (toSigned (decLE32 ((b.buffer.drop b.position).take 4))).toNat) = true
            · rw [if_pos hval]
              constructor
              · intro hbad
                simp at hbad
              · intro hbad
                rw [hval] at hbad
                simp at hbad
            · rw [if_neg hval]
              constructor
              · intro _
                simpa using hval
              · intro _
                rfl
          · intro hval
            rw [hred, if_neg (by omega), if_neg (by omega), if_pos hval]
      · -- negative length
        intro hv0
        have hlen : intAsUsize (toSigned (decLE32 ((b.buffer.drop b.position).take 4))) =
            (toSigned (decLE32 ((b.buffer.drop b.position).take 4)) + 2 ^ 64).toNat := by
          unfold intAsUsize
          have hm : toSigned (decLE32 ((b.buffer.drop b.position).take 4)) % (2 ^ 64 : Int) =
              toSigned (decLE32 ((b.buffer.drop b.position).take 4)) + 2 ^ 64 := by omega
          rw [hm]
        have hlenlb : 2 ^ 64 - 2 ^ 31 ≤
            intAsUsize (toSigned (decLE32 ((b.buffer.drop b.position).take 4))) := by
          rw [hlen]
          omega
        have hlenub : intAsUsize (toSigned (decLE32 ((b.buffer.drop b.position).take 4))) <
            2 ^ 64 := by
          rw [hlen]
          omega
        constructor
        · intro hgt
          rw [hred, if_pos hgt]
        · intro hle2
          have hlt : (b.position + 4 +
              intAsUsize (toSigned (decLE32 ((b.buffer.drop b.position).take 4)))) % 2 ^ 64 <
              b.position + 4 := by
            omega
          rw [hred, if_neg (by omega), if_pos hlt]

end ByteBuffer

namespace ByteBuffer

theorem toSigned_of_lt (u : Nat) (h : u < 2 ^ 31) : toSigned u = (u : Int) := by
  unfold toSigned
  rw [if_pos h]

theorem toSigned_emod_inv (u : Nat) (h : u < 2 ^ 32) :
    ((toSigned u) % (2 ^ 32 : Int)).toNat = u := by
  unfold toSigned
  split <;> omega

theorem put_string_prefix_get (b : ByteBuffer) (s : List Byte) (j : Nat) (hj : j < 4) :
    (b.put_string s).buffer[b.position + j]? = (encLE32 (s.length % 2 ^ 32))[j]? := by
  rw [put_string_eq]
  show (setBytes _ _ _)[b.position + j]? = _
  rw [getElem?_setBytes, if_neg (by omega)]
  rw [getElem?_ensure_capacity, if_pos ?hin]
  case hin =>
    rw [put_int32_eq]
    show b.position + j < (setBytes _ _ _).length
    rw [length_word]
    omega
  rw [put_int32_eq]
  show (setBytes _ _ _)[b.position + j]? = _
  rw [getElem?_setBytes, if_pos ?hin2]
  case hin2 =>
    refine ⟨by omega, by rw [length_encLE32]; omega, ?_⟩
    rw [ensure_capacity_length]
    omega
  rw [show b.position + j - b.position = j from by omega]
  congr 2
  exact toSigned_emod_inv (s.length % 2 ^ 32) (Nat.mod_lt _ (by norm_num))

theorem put_string_length (b : ByteBuffer) (s : List Byte) :
    (b.put_string s).buffer.length =
      max (max b.buffer.length (b.position + 4)) (b.position + 4 + s.length) := by
  rw [put_string_eq]
  show (setBytes _ _ _).length = _
  rw [length_setBytes, ensure_capacity_length, put_int32_position]
  rw [put_int32_eq]
  show max (setBytes _ _ _).length _ = _
  rw [length_word]

theorem put_string_prefix_readback (b : ByteBuffer) (s : List Byte) :
    ((b.put_string s).buffer.drop b.position).take 4 = encLE32 (s.length % 2 ^ 32) := by
  rw [show (4 : Nat) = (encLE32 (s.length % 2 ^ 32)).length from rfl]
  apply take_drop_eq_of_getElem?
  intro j hj
  rw [length_encLE32] at hj
  exact put_string_prefix_get b s j hj

theorem put_string_body_readback (b : ByteBuffer) (s : List Byte) :
    ((b.put_string s).buffer.drop (b.position + 4)).take s.length = s := by
  rw [put_string_eq]
  show ((setBytes _ _ _).drop (b.position + 4)).take s.length = s
  apply setBytes_readback
  rw [ensure_capacity_length, put_int32_position]
  omega

/-- C4 is false as stated: a valid ASCII string of 2^31 bytes round-trips
to a `BufferUnderflow` error, because `put_string` truncates the length to
the negative int32 `-2^31` and `get_string` then sign-extends it to a huge
`usize`. -/
theorem put_string_huge_roundtrip_fails :
    ({ (ByteBuffer.new none).put_string (List.replicate (2 ^ 31) (97 : Byte)) with
        position := 0 } : ByteBuffer).get_string.1 = .err .bufferUnderflow := by
  have hlen0 : (List.replicate (2 ^ 31) (97 : Byte)).length = 2 ^ 31 :=
    List.length_replicate _ _
  have hB : ((ByteBuffer.new none).put_string
      (List.replicate (2 ^ 31) (97 : Byte))).buffer.length = 4 + 2 ^ 31 := by
    rw [put_string_length, hlen0]
    show max (max (List.length []) (0 + 4)) (0 + 4 + 2 ^ 31) = 4 + 2 ^ 31
    norm_num
  have hpre : (((ByteBuffer.new none).put_string
        (List.replicate (2 ^ 31) (97 : Byte))).buffer.drop 0).take 4 =
      encLE32 (2 ^ 31 % 2 ^ 32) := by
    have h := put_string_prefix_readback (ByteBuffer.new none)
      (List.replicate (2 ^ 31) (97 : Byte))
    rw [hlen0] at h
    exact h
  have hget : (ByteBuffer.mk ((ByteBuffer.new none).put_string
        (List.replicate (2 ^ 31) (97 : Byte))).buffer 0).get_int32 =
      (.ok (-2 ^ 31), ByteBuffer.mk ((ByteBuffer.new none).put_string
        (List.replicate (2 ^ 31) (97 : Byte))).buffer 4) := by
    rw [get_int32_mk _ 0 (by rw [hB]; norm_num)]
    show (RustOutcome.ok _, _) = _
    rw [show List.drop 0 (((ByteBuffer.new none).put_string
        (List.replicate (2 ^ 31) (97 : Byte))).buffer) =
      (((ByteBuffer.new none).put_string
        (List.replicate (2 ^ 31) (97 : Byte))).buffer.drop 0) from rfl]
    rw [hpre, decLE32_encLE32]
    norm_num
    unfold toSigned
    norm_num
  have main : ∀ B : List Byte, B.length = 4 + 2 ^ 31 →
      (ByteBuffer.mk B 0).get_int32 = (.ok (-2 ^ 31), ByteBuffer.mk B 4) →
      (ByteBuffer.mk B 0).get_string.1 = .err .bufferUnderflow := by
    intro B hBlen hBget
    simp only [get_string]
    rw [hBget]
    dsimp only
    rw [if_pos ?hgt]
    case hgt =>
      rw [hBlen]
      have hiu : intAsUsize (-2 ^ 31) = 2 ^ 64 - 2 ^ 31 := by decide
      rw [hiu]
      norm_num
  exact main _ hB hget

/-- C4 (amended): for every UTF-8-valid byte string shorter than 2^31
bytes, and every starting state whose end-of-write offset fits in a 64-bit
`usize`, `put_string` followed by a reread from the write's start offset
succeeds and returns exactly the written string; the wire layout is the
4-byte little-endian length prefix followed by the raw bytes. -/
theorem string_roundtrip (b : ByteBuffer) (s : List Byte)
    (hval : utf8Valid s = true) (hlen : s.length < 2 ^ 31)
    (husize : b.position + 4 + s.length < 2 ^ 64) :
    ({ b.put_string s with position := b.position } : ByteBuffer).get_string.1 = .ok s ∧
    ((b.put_string s).buffer.drop b.position).take 4 = encLE32 s.length ∧
    ((b.put_string s).buffer.drop (b.position + 4)).take s.length = s := by
  have hmod : s.length % 2 ^ 32 = s.length := Nat.mod_eq_of_lt (by omega)
  have hpre := put_string_prefix_readback b s
  rw [hmod] at hpre
  have hbody := put_string_body_readback b s
  refine ⟨?_, hpre, hbody⟩
  have hBlen : b.position + 4 ≤ (b.put_string s).buffer.length := by
    rw [put_string_length]
    omega
  have hget : (ByteBuffer.mk (b.put_string s).buffer b.position).get_int32 =
      (.ok (s.length : Int),
       ByteBuffer.mk (b.put_string s).buffer (b.position + 4)) := by
    rw [get_int32_mk _ _ hBlen]
    show (RustOutcome.ok _, _) = _
    rw [hpre, decLE32_encLE32, Nat.mod_eq_of_lt (by omega), toSigned_of_lt _ hlen]
  show (ByteBuffer.mk (b.put_string s).buffer b.position).get_string.1 = _
  simp only [get_string]
  rw [hget]
  dsimp only
  have hiu : intAsUsize (s.length : Int) = s.length := by
    unfold intAsUsize
    omega
  rw [hiu]
  rw [Nat.mod_eq_of_lt (by omega)]
  rw [if_neg (by rw [put_string_length]; omega), if_neg (by omega)]
  rw [show b.position + 4 + s.length - (b.position + 4) = s.length from by omega]
  rw [hbody, if_pos hval]

end ByteBuffer

/-! ### Concrete witnesses -/

namespace ByteBuffer

/-- Witness for C2's amended statement: a fitting, valid one-byte body is
returned whole. -/
theorem get_string_error_characterization_witness :
    (ByteBuffer.mk [1, 0, 0, 0, 65] 0).get_string =
      (.ok [65], ByteBuffer.mk [1, 0, 0, 0, 65] 5) := by
  have h := (get_string_error_characterization (ByteBuffer.mk [1, 0, 0, 0, 65] 0)
    (by norm_num)).2 1 (ByteBuffer.mk [1, 0, 0, 0, 65] 4) (by decide)
  have h2 := ((h.1 (by norm_num)).2 (by decide)).2 (by decide)
  exact h2.trans (by decide)

/-- Witness for C3 at concrete values. -/
theorem scalar_roundtrip_witness :
    ({ (ByteBuffer.new none).put_int32 (-5) with position := 0 } : ByteBuffer).get_int32.1 =
      .ok (-5) :=
  (scalar_roundtrip (ByteBuffer.new none) (-5) (by norm_num) (by norm_num)
    7 (by norm_num) 1065353216 (by norm_num) 200 true).1

/-- Witness for C4 at a concrete two-byte ASCII string. -/
theorem string_roundtrip_witness :
    ({ (ByteBuffer.new none).put_string [104, 105] with position := 0 } :
      ByteBuffer).get_string.1 = .ok [104, 105] :=
  (string_roundtrip (ByteBuffer.new none) [104, 105] (by decide) (by norm_num)
    (by decide)).1

/-- Witness for C5 on a concretely reachable state. -/
theorem reachable_cursor_le_length_witness :
    ((ByteBuffer.new none).put_int32 3).position ≤
      ((ByteBuffer.new none).put_int32 3).buffer.length :=
  reachable_cursor_le_length _ (Reachable.put_int32 3 (Reachable.new none))

/-- Witness for C6 on a concrete four-byte buffer. -/
theorem scalar_get_characterization_witness :
    (ByteBuffer.mk [7, 0, 0, 0] 0).get_int32 =
      (.ok 7, ByteBuffer.mk [7, 0, 0, 0] 4) := by
  have h := (scalar_get_characterization (ByteBuffer.mk [7, 0, 0, 0] 0)).2.1 (by norm_num)
  exact h.trans (by decide)

/-- Witness for C7: concrete growth and cursor advance. -/
theorem capacity_growth_put_discipline_witness :
    ((ByteBuffer.new none).ensure_capacity 3).buffer = [0, 0, 0] ∧
    ((ByteBuffer.new none).put_int32 1).position = 4 := by
  have h := capacity_growth_put_discipline (ByteBuffer.new none) 3 1 0 0 0 false [] (0, 0, 0)
  refine ⟨?_, h.2.2.2.2.1⟩
  have h2 := (h.2.1 (by decide)).1
  exact h2.trans (by decide)

/-- Witness for C8 on the repository's own hex example. -/
theorem to_hex_format_witness :
    ((ByteBuffer.new none).put_int32 12345).to_hex = "39300000" :=
  (to_hex_format (ByteBuffer.new none)).2.2.2

/-- Witness for C9 at a concrete triple. -/
theorem vector_rotator_equivalence_witness :
    (ByteBuffer.new none).put_vector (1, 2, 3) = (ByteBuffer.new none).put_rotator (1, 2, 3) :=
  (vector_rotator_equivalence (ByteBuffer.new none) 1 2 3).1

/-- Witness for C10 at a concrete one-byte write. -/
theorem put_frame_property_witness :
    Frames (ByteBuffer.mk [9] 1) ((ByteBuffer.mk [9] 1).put_byte 5) :=
  (put_frame_property (ByteBuffer.mk [9] 1) 0 0 0 5 false [] (0, 0, 0)).2.2.2.1

end ByteBuffer
